import Mathlib

/-!
Verification of the email-verifier worker (src/worker.js) against its
natural-language specification.

Strings are modelled as `List Char`.  The two outbound DNS fetches are
modelled by their outcomes: a fetch either throws (network failure or a
body that fails to parse as JSON) or yields a parsed JSON object whose
`Answer` field is absent/falsy, a proper array of records, or a truthy
non-array value (a malformed record set).
-/

/-- A DNS resource record as it appears in the JSON answer; its contents
are never inspected by the worker, only the length of the answer array. -/
abbrev DnsRec := String

/-- The JSON value found in the `Answer` field of a parsed DNS response.
`missing` covers an absent field and all falsy JSON values (the code only
ever tests the field for truthiness before using it); `records` is a proper
array; `malformed` is a truthy non-array value, carrying the two length
tests the code can apply to it (`length === 0` and `length > 0`). -/
inductive AnswerVal : Type
  | missing : AnswerVal
  | records : List DnsRec → AnswerVal
  | malformed : Bool → Bool → AnswerVal
deriving DecidableEq

/-- A parsed DNS-over-HTTPS JSON response; only the `Answer` field is read. -/
structure DnsJson where
  Answer : AnswerVal
deriving DecidableEq

/-- Outcome of one `fetch` + `response.json()` round trip: `error` when the
network call or the JSON parse throws, `ok` with the parsed object otherwise. -/
abbrev FetchOutcome := Except Unit DnsJson

/-- The result record returned by verifyEmail: `{ status, reason }`. -/
structure VerificationResult where
  status : String
  reason : String
deriving DecidableEq

/-- JS `data.Answer || []`: a falsy `Answer` is replaced by the empty array. -/
def jsOrEmpty : AnswerVal → AnswerVal
  | .missing => .records []
  | v => v

/-- JS truthiness of the (possibly defaulted) `Answer` value: arrays and
truthy non-arrays are truthy, an absent/falsy field is falsy. -/
def jsTruthy : AnswerVal → Bool
  | .missing => false
  | _ => true

/-- JS `v.length === 0` applied to the `Answer` value: true for the empty
array, the recorded outcome for a truthy non-array, false otherwise
(`undefined === 0` is false). -/
def jsLenEqZero : AnswerVal → Bool
  | .records l => l.isEmpty
  | .malformed lz _ => lz
  | .missing => false

/-- JS split of a string on a single character, as `email.split('@')`:
`splitChar c s` is the list of maximal `c`-free segments of `s`. -/
def splitChar (c : Char) : List Char → List (List Char)
  | [] => [[]]
  | x :: xs =>
    if x = c then [] :: splitChar c xs
    else
      match splitChar c xs with
      | [] => [[x]]
      | h :: t => (x :: h) :: t

/-- The destructuring `const [local, domain] = email.split('@')`: first part. -/
def localOf (email : List Char) : List Char :=
  (splitChar '@' email).getD 0 []

/-- The destructuring `const [local, domain] = email.split('@')`: second part
(the empty list standing for the falsy `undefined` when there is no `@`). -/
def domainOf (email : List Char) : List Char :=
  (splitChar '@' email).getD 1 []

/-- Helper for the domain part of EMAIL_REGEX: the list contains a dot that
is followed by at least one character. -/
def dotNonLast : List Char → Bool
  | [] => false
  | y :: ys => (y = '.' && !ys.isEmpty) || dotNonLast ys

/-- The domain part of EMAIL_REGEX, the sublanguage of `[^@]+\.[^@]+`
restricted to at-free text: nonempty text, a dot, nonempty text. -/
def hasInnerDot : List Char → Bool
  | [] => false
  | _ :: xs => dotNonLast xs

/-- `EMAIL_REGEX.test`, the test of `^[^@]+@[^@]+\.[^@]+$`: exactly one `@`
(both sides at-free), a nonempty part before it, and after it a part that
contains a dot with nonempty text on each side. -/
def emailRegexTest (s : List Char) : Bool :=
  match splitChar '@' s with
  | [l, d] => !l.isEmpty && hasInnerDot d
  | _ => false

/-- The set DISPOSABLE_DOMAINS from the source. -/
def DISPOSABLE_DOMAINS : List (List Char) :=
  ["mailinator.com".toList, "10minutemail.com".toList, "guerrillamail.com".toList,
   "tempmail.org".toList, "throwaway.email".toList, "maildrop.cc".toList]

/-- The set of role-based local parts from the source (ROLE_BASED set). -/
def ROLE_BASED_SET : List (List Char) :=
  ["info".toList, "support".toList, "admin".toList, "sales".toList,
   "contact".toList, "noreply".toList, "no-reply".toList]

/-- First suspicious pattern, the test of `\d{5,}` at the head of the list:
the first five characters exist and are digits. -/
def fiveDigitsAt : List Char → Bool
  | a :: b :: c :: d :: e :: _ =>
    a.isDigit && b.isDigit && c.isDigit && d.isDigit && e.isDigit
  | _ => false

/-- The test of `\d{5,}`: some position starts a run of five digits. -/
def hasDigitRun : List Char → Bool
  | [] => false
  | x :: rest => fiveDigitsAt (x :: rest) || hasDigitRun rest

/-- `p` matches at the head of the text (list version of startsWith). -/
def startsWithSeq : List Char → List Char → Bool
  | [], _ => true
  | _ :: _, [] => false
  | p :: ps, t :: ts => p = t && startsWithSeq ps ts

/-- `p` occurs as a contiguous substring of the text. -/
def hasSub (p : List Char) : List Char → Bool
  | [] => startsWithSeq p []
  | t :: ts => startsWithSeq p (t :: ts) || hasSub p ts

/-- The test of `temp|test|fake|spam` with the `i` flag: one of the four
keywords occurs in the ASCII-lowered text. -/
def hasSuspiciousKeyword (s : List Char) : Bool :=
  let ls := s.map Char.toLower
  hasSub "temp".toList ls || hasSub "test".toList ls ||
    hasSub "fake".toList ls || hasSub "spam".toList ls

/-- Continuation of `\d+\.`: zero or more further digits, then a literal dot. -/
def digitsThenDot : List Char → Bool
  | [] => false
  | c :: cs => if c.isDigit then digitsThenDot cs else c = '.'

/-- The test of `\d+\.` at the head of the list: one or more digits then a dot. -/
def dplusDot : List Char → Bool
  | [] => false
  | c :: cs => c.isDigit && digitsThenDot cs

/-- The test of `^[a-z]{1,3}\d+\.` with the `i` flag: one to three ASCII
letters of either case, then one or more digits, then a dot. -/
def shortLabelDigits : List Char → Bool
  | [] => false
  | c1 :: rest1 =>
    c1.isAlpha &&
      (dplusDot rest1 ||
        match rest1 with
        | [] => false
        | c2 :: rest2 =>
          c2.isAlpha &&
            (dplusDot rest2 ||
              match rest2 with
              | [] => false
              | c3 :: rest3 => c3.isAlpha && dplusDot rest3))

/-- The record `{ suspicious }` returned by getDomainInfo. -/
structure DomainInfo where
  suspicious : Bool
deriving DecidableEq

/-- getDomainInfo: `suspiciousPatterns.some(pattern => pattern.test(domain))`
over the three patterns `\d{5,}`, `temp|test|fake|spam` (i) and
`^[a-z]{1,3}\d+\.` (i). -/
def getDomainInfo (domain : List Char) : DomainInfo :=
  { suspicious :=
      hasDigitRun domain || hasSuspiciousKeyword domain || shortLabelDigits domain }

/-- getMXRecords: a failed fetch or JSON parse throws `DNS lookup failed`;
otherwise the function returns `data.Answer || []`. -/
def getMXRecords (fetchRes : FetchOutcome) : Except String AnswerVal :=
  match fetchRes with
  | .error _ => .error "DNS lookup failed"
  | .ok data => .ok (jsOrEmpty data.Answer)

/-- hasARecords: any throw inside is caught and yields false; otherwise the
value of `data.Answer && data.Answer.length > 0`. -/
def hasARecords (fetchRes : FetchOutcome) : Bool :=
  match fetchRes with
  | .error _ => false
  | .ok data =>
    match data.Answer with
    | .missing => false
    | .records l => !l.isEmpty
    | .malformed _ lp => lp

/-- verifyEmail from src/worker.js, as a function of the email string and of
the outcomes of the MX fetch and of the A fetch. -/
def verifyEmail (email : List Char) (mxFetch aFetch : FetchOutcome) :
    VerificationResult :=
  if !emailRegexTest email then ⟨"invalid", "bad_syntax"⟩
  else
    let lo := localOf email
    let dom := domainOf email
    if lo.isEmpty || dom.isEmpty then ⟨"invalid", "bad_syntax"⟩
    else if DISPOSABLE_DOMAINS.contains (dom.map Char.toLower) then
      ⟨"invalid", "disposable_domain"⟩
    else if ROLE_BASED_SET.contains (lo.map Char.toLower) then
      ⟨"invalid", "role_based"⟩
    else
      match getMXRecords mxFetch with
      | .error _ => ⟨"risky", "dns_timeout"⟩
      | .ok mxRecords =>
        if !jsTruthy mxRecords || jsLenEqZero mxRecords then
          ⟨"invalid", "no_mx"⟩
        else
          let hasARecord := hasARecords aFetch
          let domainInfo := getDomainInfo dom
          if domainInfo.suspicious then ⟨"risky", "suspicious_domain"⟩
          else ⟨"valid", "dns_verified"⟩

/-- Number of outbound DNS fetches verifyEmail performs on a given input,
read off the control flow of the source: none before the MX stage, one when
the MX fetch throws, two (MX and A) once the MX fetch succeeds. -/
def dnsCallCount (email : List Char) (mxFetch : FetchOutcome) : Nat :=
  if !emailRegexTest email then 0
  else
    let lo := localOf email
    let dom := domainOf email
    if lo.isEmpty || dom.isEmpty then 0
    else if DISPOSABLE_DOMAINS.contains (dom.map Char.toLower) then 0
    else if ROLE_BASED_SET.contains (lo.map Char.toLower) then 0
    else
      match getMXRecords mxFetch with
      | .error _ => 1
      | .ok _ => 2

/-- The syntactic well-formedness condition as the spec states it: exactly
one `@` (the two surrounding parts are at-free), non-empty local and domain
parts, and the domain contains a dot with non-empty text on both sides. -/
def claimWellFormed (s : List Char) : Prop :=
  ∃ l d, s = l ++ '@' :: d ∧ '@' ∉ l ∧ '@' ∉ d ∧ l ≠ [] ∧ d ≠ [] ∧
    ∃ a b, a ≠ [] ∧ b ≠ [] ∧ d = a ++ '.' :: b

/-- Spec suspicion pattern 1: the domain contains a run of five or more
consecutive digits, stated as a five-digit contiguous substring. -/
def specPattern1 (d : List Char) : Prop :=
  ∃ run, run.length = 5 ∧ (∀ c ∈ run, c.isDigit = true) ∧ run <:+: d

/-- Spec suspicion pattern 2: the domain contains, case-insensitively, one
of the substrings temp, test, fake, spam. -/
def specPattern2 (d : List Char) : Prop :=
  ∃ w ∈ ["temp".toList, "test".toList, "fake".toList, "spam".toList],
    w <:+: d.map Char.toLower

/-- Spec suspicion pattern 3 as the claim states it: the first label is one
to three LOWERCASE letters, then one or more digits, then a dot. -/
def specPattern3 (d : List Char) : Prop :=
  ∃ letters digs rest, letters ≠ [] ∧ letters.length ≤ 3 ∧
    (∀ c ∈ letters, c.isLower = true) ∧ digs ≠ [] ∧
    (∀ c ∈ digs, c.isDigit = true) ∧ d = letters ++ digs ++ '.' :: rest

/-- Amended suspicion pattern 3, matching the `i` flag of the source regex:
the letters may be of either case (ASCII letters). -/
def specPattern3Amended (d : List Char) : Prop :=
  ∃ letters digs rest, letters ≠ [] ∧ letters.length ≤ 3 ∧
    (∀ c ∈ letters, c.isAlpha = true) ∧ digs ≠ [] ∧
    (∀ c ∈ digs, c.isDigit = true) ∧ d = letters ++ digs ++ '.' :: rest

/-- The suspicion predicate exactly as claim C3 states it. -/
def claimSuspicious (d : List Char) : Prop :=
  specPattern1 d ∨ specPattern2 d ∨ specPattern3 d

/-- The amended suspicion predicate: claim C3 with pattern 3 case-insensitive. -/
def claimSuspiciousAmended (d : List Char) : Prop :=
  specPattern1 d ∨ specPattern2 d ∨ specPattern3Amended d

/-- A fetch outcome within the spec model of the resolver: a failure, or a
response whose answer is a proper (possibly absent) record sequence.  A
truthy non-array answer value lies outside the spec data model of
DNSAnswerSet (an ordered, possibly empty, sequence of records). -/
def wellFormedFetch : FetchOutcome → Bool
  | .ok ⟨.malformed _ _⟩ => false
  | _ => true

/-- The NameResolver lookup as the spec describes it in section 4.4: failure
yields resolution_failed, success with an empty or missing answer yields the
empty sequence, success with records yields them. -/
def specLookupMX (f : FetchOutcome) : Except String (List DnsRec) :=
  match f with
  | .error _ => .error "resolution_failed"
  | .ok data =>
    match data.Answer with
    | .missing => .ok []
    | .records l => .ok l
    | .malformed _ _ => .error "resolution_failed"

/-- The ordered short-circuit decision sequence of spec section 4.5, rules
read top to bottom, built over the component checks of the source. -/
def specVerify (email : List Char) (mxFetch : FetchOutcome) :
    VerificationResult :=
  if !emailRegexTest email then ⟨"invalid", "bad_syntax"⟩
  else if DISPOSABLE_DOMAINS.contains ((domainOf email).map Char.toLower) then
    ⟨"invalid", "disposable_domain"⟩
  else if ROLE_BASED_SET.contains ((localOf email).map Char.toLower) then
    ⟨"invalid", "role_based"⟩
  else
    match specLookupMX mxFetch with
    | .error _ => ⟨"risky", "dns_timeout"⟩
    | .ok recs =>
      if recs.isEmpty then ⟨"invalid", "no_mx"⟩
      else if (getDomainInfo (domainOf email)).suspicious then
        ⟨"risky", "suspicious_domain"⟩
      else ⟨"valid", "dns_verified"⟩

/-- Outcome of parsing the request body in handleRequest: the JSON parse
throws, or the email field is absent or falsy, or an email string is given. -/
inductive ReqBody : Type
  | parseFail : ReqBody
  | noEmail : ReqBody
  | withEmail : List Char → ReqBody
deriving DecidableEq

/-- Response produced by the POST path of handleRequest: a 400 for a missing
field, the verdict of verifyEmail serialized with a 200, or the 500 body
with status error and reason internal_error produced by the outer catch. -/
inductive HttpOut : Type
  | missingParam : HttpOut
  | verdict : VerificationResult → HttpOut
  | internalError : String → String → HttpOut
deriving DecidableEq

/-- The POST path of handleRequest: a body whose parse throws is caught by
the outer try and reported as the generic internal_error outcome; a missing
email field yields the 400 error; otherwise the verdict of verifyEmail. -/
def handleRequest (body : ReqBody) (mxFetch aFetch : FetchOutcome) : HttpOut :=
  match body with
  | .parseFail => .internalError "error" "internal_error"
  | .noEmail => .missingParam
  | .withEmail e => .verdict (verifyEmail e mxFetch aFetch)

/-- The seven (status, reason) pairs of the authoritative table in spec
section 6. -/
def allowedResults : List VerificationResult :=
  [⟨"invalid", "bad_syntax"⟩, ⟨"invalid", "disposable_domain"⟩,
   ⟨"invalid", "role_based"⟩, ⟨"invalid", "no_mx"⟩,
   ⟨"risky", "suspicious_domain"⟩, ⟨"risky", "dns_timeout"⟩,
   ⟨"valid", "dns_verified"⟩]

theorem splitChar_ne_nil (c : Char) (s : List Char) : splitChar c s ≠ [] := by
  induction s with
  | nil => simp [splitChar]
  | cons x xs ih =>
    rw [splitChar]
    split
    · simp
    · rcases h : splitChar c xs with _ | ⟨hd, tl⟩ <;> simp [h]

theorem splitChar_eq_single_iff (c : Char) (s l : List Char) :
    splitChar c s = [l] ↔ s = l ∧ c ∉ l := by
  induction s generalizing l with
  | nil =>
    constructor
    · intro h
      have h' : ([] : List Char) = l := by
        have : [([] : List Char)] = [l] := h
        injection this with h1 _
      exact ⟨h', h' ▸ (by simp)⟩
    · rintro ⟨rfl, -⟩
      rfl
  | cons x xs ih =>
    rw [splitChar]
    by_cases hx : x = c
    · subst hx
      rw [if_pos rfl]
      constructor
      · intro h
        injection h with h1 h2
        exact absurd h2 (splitChar_ne_nil x xs)
      · rintro ⟨rfl, hmem⟩
        exact absurd (List.mem_cons_self x xs) hmem
    · rw [if_neg hx]
      rcases h3 : splitChar c xs with _ | ⟨hd, tl⟩
      · exact absurd h3 (splitChar_ne_nil c xs)
      · constructor
        · intro h
          have h' : (x :: hd) :: tl = [l] := h
          injection h' with h1 h2
          subst h2
          obtain ⟨rfl, hni⟩ := (ih hd).mp h3
          subst h1
          refine ⟨rfl, ?_⟩
          intro hc
          rcases List.mem_cons.mp hc with rfl | hc2
          · exact hx rfl
          · exact hni hc2
        · rintro ⟨rfl, hmem⟩
          have hxs : c ∉ xs := fun h => hmem (List.mem_cons_of_mem _ h)
          have h4 : splitChar c xs = [xs] := (ih xs).mpr ⟨rfl, hxs⟩
          rw [h3] at h4
          injection h4 with h5 h6
          subst h5
          subst h6
          rfl

theorem splitChar_eq_pair_iff (c : Char) (s l d : List Char) :
    splitChar c s = [l, d] ↔ s = l ++ c :: d ∧ c ∉ l ∧ c ∉ d := by
  induction s generalizing l with
  | nil =>
    constructor
    · intro h
      have h' : [([] : List Char)] = [l, d] := h
      injection h' with _ h2
      exact absurd h2 (by simp)
    · rintro ⟨h, -, -⟩
      exact absurd h (by simp)
  | cons x xs ih =>
    rw [splitChar]
    by_cases hx : x = c
    · subst hx
      rw [if_pos rfl]
      constructor
      · intro h
        injection h with h1 h2
        obtain ⟨rfl, hnd⟩ := (splitChar_eq_single_iff x xs d).mp h2
        subst h1
        exact ⟨rfl, by simp, hnd⟩
      · rintro ⟨heq, hnl, hnd⟩
        obtain rfl : l = [] := by
          cases l with
          | nil => rfl
          | cons y ys =>
            injection heq with h1 _
            subst h1
            exact absurd (List.mem_cons_self x ys) hnl
        obtain rfl : xs = d := by
          injection heq with _ h2
        rw [(splitChar_eq_single_iff x xs xs).mpr ⟨rfl, hnd⟩]
    · rw [if_neg hx]
      rcases h3 : splitChar c xs with _ | ⟨hd, tl⟩
      · exact absurd h3 (splitChar_ne_nil c xs)
      · constructor
        · intro h
          have h' : (x :: hd) :: tl = [l, d] := h
          injection h' with h1 h2
          subst h2
          obtain ⟨rfl, hnh, hnd⟩ := (ih hd).mp h3
          subst h1
          refine ⟨rfl, ?_, hnd⟩
          intro hc
          rcases List.mem_cons.mp hc with rfl | hc2
          · exact hx rfl
          · exact hnh hc2
        · rintro ⟨heq, hnl, hnd⟩
          cases l with
          | nil =>
            injection heq with h1 _
            exact absurd h1 hx
          | cons y ys =>
            injection heq with h1 h2
            subst h1
            have hnys : c ∉ ys := fun h => hnl (List.mem_cons_of_mem _ h)
            have h4 : splitChar c xs = [ys, d] := (ih ys).mpr ⟨h2, hnys, hnd⟩
            rw [h3] at h4
            injection h4 with h5 h6
            subst h5
            subst h6
            rfl

theorem dotNonLast_iff (s : List Char) :
    dotNonLast s = true ↔ ∃ a b, b ≠ [] ∧ s = a ++ '.' :: b := by
  induction s with
  | nil =>
    simp only [dotNonLast, Bool.false_eq_true, false_iff]
    rintro ⟨a, b, hb, h⟩
    exact absurd h (by simp)
  | cons y ys ih =>
    simp only [dotNonLast, Bool.or_eq_true, Bool.and_eq_true, decide_eq_true_eq,
      Bool.not_eq_true', List.isEmpty_eq_false, ih]
    constructor
    · rintro (⟨rfl, hne⟩ | ⟨a, b, hb, rfl⟩)
      · exact ⟨[], ys, hne, rfl⟩
      · exact ⟨y :: a, b, hb, rfl⟩
    · rintro ⟨a, b, hb, heq⟩
      cases a with
      | nil =>
        injection heq with h1 h2
        subst h1
        subst h2
        exact Or.inl ⟨rfl, hb⟩
      | cons a0 a' =>
        injection heq with h1 h2
        subst h1
        exact Or.inr ⟨a', b, hb, h2⟩

theorem hasInnerDot_iff (d : List Char) :
    hasInnerDot d = true ↔ ∃ a b, a ≠ [] ∧ b ≠ [] ∧ d = a ++ '.' :: b := by
  cases d with
  | nil =>
    simp only [hasInnerDot, Bool.false_eq_true, false_iff]
    rintro ⟨a, b, ha, hb, h⟩
    rcases a with _ | ⟨a0, a'⟩
    · exact ha rfl
    · exact absurd h (by simp)
  | cons x xs =>
    simp only [hasInnerDot, dotNonLast_iff]
    constructor
    · rintro ⟨a, b, hb, rfl⟩
      exact ⟨x :: a, b, by simp, hb, rfl⟩
    · rintro ⟨a, b, ha, hb, heq⟩
      cases a with
      | nil => exact absurd rfl ha
      | cons a0 a' =>
        injection heq with h1 h2
        exact ⟨a', b, hb, h2⟩

theorem hasInnerDot_ne_nil {d : List Char} (h : hasInnerDot d = true) : d ≠ [] := by
  cases d with
  | nil => simp [hasInnerDot] at h
  | cons x xs => simp

theorem emailRegexTest_iff (s : List Char) :
    emailRegexTest s = true ↔ claimWellFormed s := by
  constructor
  · intro h
    rw [emailRegexTest] at h
    rcases h3 : splitChar '@' s with _ | ⟨l, _ | ⟨d, _ | ⟨e, tl⟩⟩⟩ <;>
      rw [h3] at h
    · simp at h
    · simp at h
    · have h' : (!l.isEmpty && hasInnerDot d) = true := h
      rw [Bool.and_eq_true, Bool.not_eq_true', List.isEmpty_eq_false] at h'
      obtain ⟨hl, hd⟩ := h'
      obtain ⟨hs, hnl, hnd⟩ := (splitChar_eq_pair_iff '@' s l d).mp h3
      obtain ⟨a, b, ha, hb, hdd⟩ := (hasInnerDot_iff d).mp hd
      exact ⟨l, d, hs, hnl, hnd, hl, hasInnerDot_ne_nil hd, a, b, ha, hb, hdd⟩
    · simp at h
  · rintro ⟨l, d, rfl, hnl, hnd, hl, hd, a, b, ha, hb, rfl⟩
    rw [emailRegexTest]
    have h3 : splitChar '@' (l ++ '@' :: (a ++ '.' :: b)) = [l, a ++ '.' :: b] :=
      (splitChar_eq_pair_iff '@' _ l _).mpr ⟨rfl, hnl, hnd⟩
    rw [h3]
    have h4 : hasInnerDot (a ++ '.' :: b) = true :=
      (hasInnerDot_iff _).mpr ⟨a, b, ha, hb, rfl⟩
    have h5 : (!l.isEmpty) = true := by
      rw [Bool.not_eq_true', List.isEmpty_eq_false]
      exact hl
    show (!l.isEmpty && hasInnerDot (a ++ '.' :: b)) = true
    rw [h5, h4]
    rfl

theorem regexTrue_parts {s : List Char} (h : emailRegexTest s = true) :
    ∃ l d, splitChar '@' s = [l, d] ∧ l ≠ [] ∧ d ≠ [] ∧
      localOf s = l ∧ domainOf s = d := by
  rw [emailRegexTest] at h
  rcases h3 : splitChar '@' s with _ | ⟨l, _ | ⟨d, _ | ⟨e, tl⟩⟩⟩ <;>
    rw [h3] at h
  · simp at h
  · simp at h
  · have h' : (!l.isEmpty && hasInnerDot d) = true := h
    rw [Bool.and_eq_true, Bool.not_eq_true', List.isEmpty_eq_false] at h'
    exact ⟨l, d, rfl, h'.1, hasInnerDot_ne_nil h'.2,
      by rw [localOf, h3]; rfl, by rw [domainOf, h3]; rfl⟩
  · simp at h

theorem infix_of_isPre {l₁ l₂ : List Char} (h : l₁ <+: l₂) : l₁ <:+: l₂ := by
  obtain ⟨t, rfl⟩ := h
  exact ⟨[], t, rfl⟩

theorem infix_cons_of_infix {x : Char} {l₁ l₂ : List Char} (h : l₁ <:+: l₂) :
    l₁ <:+: x :: l₂ := by
  obtain ⟨u, v, rfl⟩ := h
  exact ⟨x :: u, v, rfl⟩

theorem startsWithSeq_iff (p t : List Char) :
    startsWithSeq p t = true ↔ p <+: t := by
  induction p generalizing t with
  | nil =>
    simp only [startsWithSeq, true_iff]
    exact ⟨t, rfl⟩
  | cons a ps ih =>
    cases t with
    | nil =>
      simp only [startsWithSeq, Bool.false_eq_true, false_iff, List.prefix_nil]
      simp
    | cons b ts =>
      simp only [startsWithSeq, Bool.and_eq_true, decide_eq_true_eq, ih,
        List.cons_prefix_cons]

theorem hasSub_iff (p t : List Char) : hasSub p t = true ↔ p <:+: t := by
  induction t with
  | nil =>
    simp only [hasSub, startsWithSeq_iff, List.infix_nil, List.prefix_nil]
  | cons x ts ih =>
    simp only [hasSub, Bool.or_eq_true, startsWithSeq_iff, ih, List.infix_cons_iff]

theorem fiveDigitsAt_iff (s : List Char) :
    fiveDigitsAt s = true ↔
      ∃ run, run.length = 5 ∧ (∀ c ∈ run, c.isDigit = true) ∧ run <+: s := by
  constructor
  · intro h
    rcases s with _ | ⟨a, _ | ⟨b, _ | ⟨c, _ | ⟨d, _ | ⟨e, rest⟩⟩⟩⟩⟩ <;>
      simp only [fiveDigitsAt, Bool.false_eq_true] at h
    rw [Bool.and_eq_true, Bool.and_eq_true, Bool.and_eq_true, Bool.and_eq_true] at h
    obtain ⟨⟨⟨⟨ha, hb⟩, hc⟩, hd⟩, he⟩ := h
    refine ⟨[a, b, c, d, e], rfl, ?_, ⟨rest, rfl⟩⟩
    intro ch hch
    have h5 : ch = a ∨ ch = b ∨ ch = c ∨ ch = d ∨ ch = e := by simpa using hch
    rcases h5 with rfl | rfl | rfl | rfl | rfl <;> assumption
  · rintro ⟨run, hlen, hdig, hpre⟩
    rcases run with _ | ⟨a, _ | ⟨b, _ | ⟨c, _ | ⟨d, _ | ⟨e, _ | ⟨f, r⟩⟩⟩⟩⟩⟩
    · simp only [List.length_nil] at hlen
      omega
    · simp only [List.length_cons, List.length_nil] at hlen
      omega
    · simp only [List.length_cons, List.length_nil] at hlen
      omega
    · simp only [List.length_cons, List.length_nil] at hlen
      omega
    · simp only [List.length_cons, List.length_nil] at hlen
      omega
    · obtain ⟨tl, rfl⟩ := hpre
      show (a.isDigit && b.isDigit && c.isDigit && d.isDigit && e.isDigit) = true
      rw [hdig a (by simp), hdig b (by simp), hdig c (by simp),
        hdig d (by simp), hdig e (by simp)]
      rfl
    · simp only [List.length_cons, List.length_nil] at hlen
      omega

theorem hasDigitRun_iff (s : List Char) :
    hasDigitRun s = true ↔ specPattern1 s := by
  rw [specPattern1]
  induction s with
  | nil =>
    simp only [hasDigitRun, Bool.false_eq_true, false_iff]
    rintro ⟨run, hlen, -, hinf⟩
    rw [List.infix_nil] at hinf
    subst hinf
    simp at hlen
  | cons x xs ih =>
    rw [hasDigitRun, Bool.or_eq_true, ih, fiveDigitsAt_iff]
    constructor
    · rintro (⟨run, h5, hd, hpre⟩ | ⟨run, h5, hd, hinf⟩)
      · exact ⟨run, h5, hd, infix_of_isPre hpre⟩
      · exact ⟨run, h5, hd, infix_cons_of_infix hinf⟩
    · rintro ⟨run, h5, hd, hinf⟩
      rcases List.infix_cons_iff.mp hinf with hpre | hinf2
      · exact Or.inl ⟨run, h5, hd, hpre⟩
      · exact Or.inr ⟨run, h5, hd, hinf2⟩

theorem hasSuspiciousKeyword_iff (s : List Char) :
    hasSuspiciousKeyword s = true ↔ specPattern2 s := by
  rw [hasSuspiciousKeyword, specPattern2]
  simp only [Bool.or_eq_true, hasSub_iff, List.mem_cons, List.mem_singleton,
    List.not_mem_nil]
  constructor
  · rintro (((h | h) | h) | h)
    · exact ⟨"temp".toList, by simp, h⟩
    · exact ⟨"test".toList, by simp, h⟩
    · exact ⟨"fake".toList, by simp, h⟩
    · exact ⟨"spam".toList, by simp, h⟩
  · rintro ⟨w, hw, hinf⟩
    rcases hw with rfl | rfl | rfl | hw
    · exact Or.inl (Or.inl (Or.inl hinf))
    · exact Or.inl (Or.inl (Or.inr hinf))
    · exact Or.inl (Or.inr hinf)
    · rcases hw with rfl | hw
      · exact Or.inr hinf
      · exact absurd hw (by simp)

theorem digitsThenDot_iff (s : List Char) :
    digitsThenDot s = true ↔
      ∃ ds rest, (∀ c ∈ ds, c.isDigit = true) ∧ s = ds ++ '.' :: rest := by
  induction s with
  | nil =>
    simp only [digitsThenDot, Bool.false_eq_true, false_iff]
    rintro ⟨ds, rest, -, h⟩
    exact absurd h (by simp)
  | cons c cs ih =>
    by_cases hc : c.isDigit = true
    · rw [digitsThenDot, if_pos hc, ih]
      constructor
      · rintro ⟨ds, rest, hds, rfl⟩
        refine ⟨c :: ds, rest, ?_, rfl⟩
        intro x hx
        rcases List.mem_cons.mp hx with rfl | hx2
        · exact hc
        · exact hds x hx2
      · rintro ⟨ds, rest, hds, heq⟩
        cases ds with
        | nil =>
          injection heq with h1 h2
          subst h1
          simp at hc
        | cons d0 ds' =>
          injection heq with h1 h2
          exact ⟨ds', rest, fun x hx => hds x (List.mem_cons_of_mem _ hx), h2⟩
    · rw [digitsThenDot, if_neg hc]
      simp only [decide_eq_true_eq]
      constructor
      · rintro rfl
        exact ⟨[], cs, by simp, rfl⟩
      · rintro ⟨ds, rest, hds, heq⟩
        cases ds with
        | nil =>
          injection heq with h1 _
        | cons d0 ds' =>
          injection heq with h1 h2
          subst h1
          exact absurd (hds c (List.mem_cons_self c ds')) hc

theorem dplusDot_iff (s : List Char) :
    dplusDot s = true ↔
      ∃ ds rest, ds ≠ [] ∧ (∀ c ∈ ds, c.isDigit = true) ∧
        s = ds ++ '.' :: rest := by
  cases s with
  | nil =>
    simp only [dplusDot, Bool.false_eq_true, false_iff]
    rintro ⟨ds, rest, hne, -, h⟩
    cases ds with
    | nil => exact hne rfl
    | cons d0 ds' => exact absurd h (by simp)
  | cons c cs =>
    rw [dplusDot, Bool.and_eq_true, digitsThenDot_iff]
    constructor
    · rintro ⟨hc, ds, rest, hds, rfl⟩
      refine ⟨c :: ds, rest, by simp, ?_, rfl⟩
      intro x hx
      rcases List.mem_cons.mp hx with rfl | hx2
      · exact hc
      · exact hds x hx2
    · rintro ⟨ds, rest, hne, hds, heq⟩
      cases ds with
      | nil => exact absurd rfl hne
      | cons d0 ds' =>
        injection heq with h1 h2
        subst h1
        exact ⟨hds c (List.mem_cons_self c ds'),
          ds', rest, fun x hx => hds x (List.mem_cons_of_mem _ hx), h2⟩

theorem shortLabelDigits_iff (d : List Char) :
    shortLabelDigits d = true ↔ specPattern3Amended d := by
  rw [specPattern3Amended]
  constructor
  · intro h
    rcases d with _ | ⟨c1, rest1⟩
    · simp [shortLabelDigits] at h
    · rcases rest1 with _ | ⟨c2, rest2⟩
      · simp [shortLabelDigits, dplusDot] at h
      · rcases rest2 with _ | ⟨c3, rest3⟩
        · simp [shortLabelDigits, dplusDot, digitsThenDot] at h
        · simp only [shortLabelDigits, Bool.and_eq_true, Bool.or_eq_true] at h
          obtain ⟨ha1, hrest⟩ := h
          rcases hrest with h1 | ⟨ha2, h2 | ⟨ha3, h4⟩⟩
          · obtain ⟨ds, rest, hne, hds, hsplit⟩ := (dplusDot_iff _).mp h1
            refine ⟨[c1], ds, rest, by simp, by simp, ?_, hne, hds, by rw [hsplit]; rfl⟩
            intro x hx
            rcases List.mem_singleton.mp hx with rfl
            exact ha1
          · obtain ⟨ds, rest, hne, hds, hsplit⟩ := (dplusDot_iff _).mp h2
            refine ⟨[c1, c2], ds, rest, by simp, by simp, ?_, hne, hds,
              by rw [hsplit]; rfl⟩
            intro x hx
            rcases List.mem_cons.mp hx with rfl | hx2
            · exact ha1
            · rcases List.mem_singleton.mp hx2 with rfl
              exact ha2
          · obtain ⟨ds, rest, hne, hds, hsplit⟩ := (dplusDot_iff _).mp h4
            refine ⟨[c1, c2, c3], ds, rest, by simp, by simp, ?_, hne, hds,
              by rw [hsplit]; rfl⟩
            intro x hx
            rcases List.mem_cons.mp hx with rfl | hx2
            · exact ha1
            · rcases List.mem_cons.mp hx2 with rfl | hx3
              · exact ha2
              · rcases List.mem_singleton.mp hx3 with rfl
                exact ha3
  · rintro ⟨letters, digs, rest, hne, hlen, hAl, hdne, hdig, rfl⟩
    have hdd : dplusDot (digs ++ '.' :: rest) = true :=
      (dplusDot_iff _).mpr ⟨digs, rest, hdne, hdig, rfl⟩
    rcases letters with _ | ⟨c1, _ | ⟨c2, _ | ⟨c3, _ | ⟨c4, r⟩⟩⟩⟩
    · exact absurd rfl hne
    · have h1 : c1.isAlpha = true := hAl c1 (by simp)
      simp [shortLabelDigits, h1, hdd]
    · have h1 : c1.isAlpha = true := hAl c1 (by simp)
      have h2 : c2.isAlpha = true := hAl c2 (by simp)
      simp [shortLabelDigits, h1, h2, hdd]
    · have h1 : c1.isAlpha = true := hAl c1 (by simp)
      have h2 : c2.isAlpha = true := hAl c2 (by simp)
      have h3 : c3.isAlpha = true := hAl c3 (by simp)
      simp [shortLabelDigits, h1, h2, h3, hdd]
    · simp only [List.length_cons] at hlen
      omega

theorem getDomainInfo_iff_amended (d : List Char) :
    (getDomainInfo d).suspicious = true ↔ claimSuspiciousAmended d := by
  rw [getDomainInfo, claimSuspiciousAmended]
  show (hasDigitRun d || hasSuspiciousKeyword d || shortLabelDigits d) = true ↔ _
  rw [Bool.or_eq_true, Bool.or_eq_true, hasDigitRun_iff, hasSuspiciousKeyword_iff,
    shortLabelDigits_iff]
  tauto

theorem verifyEmail_after_regex {email : List Char}
    (hr : emailRegexTest email = true) (mx a : FetchOutcome) :
    verifyEmail email mx a =
      (if DISPOSABLE_DOMAINS.contains ((domainOf email).map Char.toLower) then
        ⟨"invalid", "disposable_domain"⟩
      else if ROLE_BASED_SET.contains ((localOf email).map Char.toLower) then
        ⟨"invalid", "role_based"⟩
      else
        match getMXRecords mx with
        | .error _ => ⟨"risky", "dns_timeout"⟩
        | .ok mxRecords =>
          if !jsTruthy mxRecords || jsLenEqZero mxRecords then
            ⟨"invalid", "no_mx"⟩
          else if (getDomainInfo (domainOf email)).suspicious then
            ⟨"risky", "suspicious_domain"⟩
          else ⟨"valid", "dns_verified"⟩) := by
  obtain ⟨l, d, hsp, hlne, hdne, hl, hd⟩ := regexTrue_parts hr
  have hle : (localOf email).isEmpty = false := by
    rw [List.isEmpty_eq_false, hl]
    exact hlne
  have hde : (domainOf email).isEmpty = false := by
    rw [List.isEmpty_eq_false, hd]
    exact hdne
  rw [verifyEmail]
  rw [hr]
  simp only [Bool.not_true, Bool.false_eq_true, if_false, hle, hde,
    Bool.or_self, if_neg (by simp : ¬(false || false) = true)]

/-- C1: for every input string, verifyEmail returns the verdict of the first
matching rule of the ordered short-circuit sequence of spec section 4.5
(syntax failure, disposable domain, role-based local part, MX lookup
failure, empty MX answer, suspicious domain, otherwise valid), for every
outcome of the DNS collaborator that lies in the spec data model of the
resolver (failure, or an answer sequence that may be missing or empty). -/
theorem claim_C1_decision_sequence (email : List Char) (mx a : FetchOutcome)
    (hwf : wellFormedFetch mx = true) :
    verifyEmail email mx a = specVerify email mx := by
  by_cases hr : emailRegexTest email = true
  · rw [verifyEmail_after_regex hr, specVerify, hr]
    simp only [Bool.not_true, Bool.false_eq_true, if_false]
    by_cases hdisp :
        DISPOSABLE_DOMAINS.contains ((domainOf email).map Char.toLower) = true
    · rw [if_pos hdisp, if_pos hdisp]
    · rw [if_neg hdisp, if_neg hdisp]
      by_cases hrole :
          ROLE_BASED_SET.contains ((localOf email).map Char.toLower) = true
      · rw [if_pos hrole, if_pos hrole]
      · rw [if_neg hrole, if_neg hrole]
        rcases mx with e | ⟨ans⟩
        · rfl
        · rcases ans with _ | l | ⟨lz, lp⟩
          · simp [getMXRecords, jsOrEmpty, jsTruthy, jsLenEqZero, specLookupMX]
          · cases l with
            | nil =>
              simp [getMXRecords, jsOrEmpty, jsTruthy, jsLenEqZero, specLookupMX]
            | cons r rs =>
              simp [getMXRecords, jsOrEmpty, jsTruthy, jsLenEqZero, specLookupMX]
          · simp [wellFormedFetch] at hwf
  · have hrf : emailRegexTest email = false := by
      rcases hb : emailRegexTest email
      · rfl
      · exact absurd hb hr
    rw [verifyEmail, specVerify, hrf]
    rfl

/-- Witness for C1 at a concrete input: a well-formed address with one MX
record, where both the engine and the spec sequence return dns_verified. -/
theorem claim_C1_witness :
    verifyEmail "user@example.com".toList (.ok ⟨.records ["mx"]⟩) (.error ()) =
      specVerify "user@example.com".toList (.ok ⟨.records ["mx"]⟩) :=
  claim_C1_decision_sequence "user@example.com".toList
    (.ok ⟨.records ["mx"]⟩) (.error ()) (by decide)

/-- C2: for every string that fails the syntactic conditions (not exactly
one at sign, or empty local or domain part, or no dot with nonempty text on
both sides inside the domain), verifyEmail returns invalid/bad_syntax and
performs zero DNS calls. -/
theorem claim_C2_bad_syntax_no_network (email : List Char)
    (mx a : FetchOutcome) (h : ¬ claimWellFormed email) :
    verifyEmail email mx a = ⟨"invalid", "bad_syntax"⟩ ∧
      dnsCallCount email mx = 0 := by
  have hrf : emailRegexTest email = false := by
    rcases hb : emailRegexTest email
    · rfl
    · exact absurd ((emailRegexTest_iff email).mp hb) h
  constructor
  · rw [verifyEmail, hrf]
    rfl
  · rw [dnsCallCount, hrf]
    rfl

/-- Witness for C2 at a concrete input without an at sign. -/
theorem claim_C2_witness :
    verifyEmail "plainaddress".toList (.error ()) (.error ()) =
        ⟨"invalid", "bad_syntax"⟩ ∧
      dnsCallCount "plainaddress".toList (.error ()) = 0 :=
  claim_C2_bad_syntax_no_network "plainaddress".toList (.error ()) (.error ())
    (fun hc => absurd ((emailRegexTest_iff _).mpr hc) (by decide))

/-- C10: every string accepted by EMAIL_REGEX splits on the at sign into a
nonempty local part and a nonempty domain part, so the second bad_syntax
guard after the split can never fire. -/
theorem claim_C10_guard_unreachable (email : List Char)
    (h : emailRegexTest email = true) :
    localOf email ≠ [] ∧ domainOf email ≠ [] ∧
      ((localOf email).isEmpty || (domainOf email).isEmpty) = false := by
  obtain ⟨l, d, hsp, hlne, hdne, hl, hd⟩ := regexTrue_parts h
  refine ⟨by rw [hl]; exact hlne, by rw [hd]; exact hdne, ?_⟩
  have h1 : (localOf email).isEmpty = false := by
    rw [List.isEmpty_eq_false, hl]
    exact hlne
  have h2 : (domainOf email).isEmpty = false := by
    rw [List.isEmpty_eq_false, hd]
    exact hdne
  rw [h1, h2]
  rfl

/-- Witness for C10 at a concrete accepted input. -/
theorem claim_C10_witness :
    localOf "a@b.c".toList ≠ [] ∧ domainOf "a@b.c".toList ≠ [] ∧
      ((localOf "a@b.c".toList).isEmpty ||
        (domainOf "a@b.c".toList).isEmpty) = false :=
  claim_C10_guard_unreachable "a@b.c".toList (by decide)

/-- C3 counterexample: for the domain AB1.xy the heuristic of the code is
suspicious (the third regex is case-insensitive), while the three predicates
of the claim, whose third pattern demands lowercase letters, all fail; so
the biconditional of the claim is false at this input. -/
theorem claim_C3_counterexample :
    (getDomainInfo "AB1.xy".toList).suspicious = true ∧
      ¬ claimSuspicious "AB1.xy".toList := by
  constructor
  · decide
  · rintro (h1 | h2 | h3)
    · exact absurd ((hasDigitRun_iff _).mpr h1) (by decide)
    · exact absurd ((hasSuspiciousKeyword_iff _).mpr h2) (by decide)
    · obtain ⟨letters, digs, rest, hne, hlen, hLow, hdne, hdig, heq⟩ := h3
      cases letters with
      | nil => exact absurd rfl hne
      | cons c0 l' =>
        have h0 : c0 = 'A' := by
          have : 'A' :: "B1.xy".toList = c0 :: (l' ++ digs ++ '.' :: rest) := heq
          injection this with h1 _
          exact h1.symm
        subst h0
        exact absurd (hLow 'A' (List.mem_cons_self 'A' l')) (by decide)

/-- C3 amended: the heuristic flags a domain as suspicious if and only if it
contains a run of five or more digits, or contains one of the keywords temp,
test, fake, spam case-insensitively, or starts with one to three ASCII
letters of either case followed by one or more digits and a dot. -/
theorem claim_C3_amended_suspicion_iff (d : List Char) :
    (getDomainInfo d).suspicious = true ↔ claimSuspiciousAmended d :=
  getDomainInfo_iff_amended d

/-- C4: the outcome of the A-record fetch never changes the result of
verifyEmail, and a failing A-record fetch is swallowed into false, the value
standing for no A records. -/
theorem claim_C4_A_lookup_inert :
    (∀ (email : List Char) (mx a a' : FetchOutcome),
        verifyEmail email mx a = verifyEmail email mx a') ∧
      hasARecords (.error ()) = false := by
  constructor
  · intro email mx a a'
    rfl
  · rfl

/-- C5: when the MX fetch fails, getMXRecords throws its DNS lookup failed
error and verifyEmail, having passed the static checks, catches it and
returns risky/dns_timeout instead of propagating it. -/
theorem claim_C5_mx_failure_timeout (email : List Char) (a : FetchOutcome)
    (hr : emailRegexTest email = true)
    (hdisp : DISPOSABLE_DOMAINS.contains
      ((domainOf email).map Char.toLower) = false)
    (hrole : ROLE_BASED_SET.contains
      ((localOf email).map Char.toLower) = false) :
    getMXRecords (.error ()) = .error "DNS lookup failed" ∧
      verifyEmail email (.error ()) a = ⟨"risky", "dns_timeout"⟩ := by
  refine ⟨rfl, ?_⟩
  rw [verifyEmail_after_regex hr, hdisp, hrole]
  rfl

/-- Witness for C5 at a concrete input. -/
theorem claim_C5_witness :
    getMXRecords (.error ()) = .error "DNS lookup failed" ∧
      verifyEmail "user@example.com".toList (.error ()) (.ok ⟨.records []⟩) =
        ⟨"risky", "dns_timeout"⟩ :=
  claim_C5_mx_failure_timeout "user@example.com".toList (.ok ⟨.records []⟩)
    (by decide) (by decide) (by decide)

/-- C6: an MX fetch that succeeds with a missing or empty answer makes
getMXRecords return the empty record array, not an error, and verifyEmail,
having passed the static checks, returns invalid/no_mx. -/
theorem claim_C6_empty_mx (email : List Char) (a : FetchOutcome)
    (hr : emailRegexTest email = true)
    (hdisp : DISPOSABLE_DOMAINS.contains
      ((domainOf email).map Char.toLower) = false)
    (hrole : ROLE_BASED_SET.contains
      ((localOf email).map Char.toLower) = false) :
    getMXRecords (.ok ⟨.missing⟩) = .ok (.records []) ∧
      getMXRecords (.ok ⟨.records []⟩) = .ok (.records []) ∧
      verifyEmail email (.ok ⟨.missing⟩) a = ⟨"invalid", "no_mx"⟩ ∧
      verifyEmail email (.ok ⟨.records []⟩) a = ⟨"invalid", "no_mx"⟩ := by
  refine ⟨rfl, rfl, ?_, ?_⟩ <;>
    rw [verifyEmail_after_regex hr, hdisp, hrole] <;> rfl

/-- Witness for C6 at a concrete input. -/
theorem claim_C6_witness :
    getMXRecords (.ok ⟨.missing⟩) = .ok (.records []) ∧
      getMXRecords (.ok ⟨.records []⟩) = .ok (.records []) ∧
      verifyEmail "user@example.com".toList (.ok ⟨.missing⟩) (.error ()) =
        ⟨"invalid", "no_mx"⟩ ∧
      verifyEmail "user@example.com".toList (.ok ⟨.records []⟩) (.error ()) =
        ⟨"invalid", "no_mx"⟩ :=
  claim_C6_empty_mx "user@example.com".toList (.error ())
    (by decide) (by decide) (by decide)

/-- C7: every result of verifyEmail is one of the seven pairs of the
authoritative status/reason table. -/
theorem claim_C7_closed_result_set (email : List Char) (mx a : FetchOutcome) :
    verifyEmail email mx a ∈ allowedResults := by
  rw [verifyEmail]
  by_cases hr : emailRegexTest email = true
  · rw [hr]
    simp only [Bool.not_true, Bool.false_eq_true, if_false]
    by_cases hg : ((localOf email).isEmpty || (domainOf email).isEmpty) = true
    · rw [if_pos hg]
      simp [allowedResults]
    · rw [if_neg hg]
      by_cases hdisp : DISPOSABLE_DOMAINS.contains
          ((domainOf email).map Char.toLower) = true
      · rw [if_pos hdisp]
        simp [allowedResults]
      · rw [if_neg hdisp]
        by_cases hrole : ROLE_BASED_SET.contains
            ((localOf email).map Char.toLower) = true
        · rw [if_pos hrole]
          simp [allowedResults]
        · rw [if_neg hrole]
          rcases getMXRecords mx with e | recs
          · simp [allowedResults]
          · show (if (!jsTruthy recs || jsLenEqZero recs) = true then
                ({ status := "invalid", reason := "no_mx" } : VerificationResult)
              else
                if (getDomainInfo (domainOf email)).suspicious = true then
                  { status := "risky", reason := "suspicious_domain" }
                else { status := "valid", reason := "dns_verified" }) ∈
              allowedResults
            by_cases hz : (!jsTruthy recs || jsLenEqZero recs) = true
            · rw [if_pos hz]
              simp [allowedResults]
            · rw [if_neg hz]
              by_cases hs : (getDomainInfo (domainOf email)).suspicious = true
              · rw [if_pos hs]
                simp [allowedResults]
              · rw [if_neg hs]
                simp [allowedResults]
  · have hrf : emailRegexTest email = false := by
      rcases hb : emailRegexTest email
      · rfl
      · exact absurd hb hr
    rw [hrf]
    simp [allowedResults]

/-- C8 counterexample: a resolver success whose Answer field is a truthy
non-array value (a malformed record set, length test positive) is not
caught as a fault: the engine treats it like a non-empty record set and
returns valid/dns_verified, not a generic failure outcome. -/
theorem claim_C8_counterexample :
    verifyEmail "user@example.com".toList (.ok ⟨.malformed false true⟩)
        (.error ()) = ⟨"valid", "dns_verified"⟩ ∧
      (verifyEmail "user@example.com".toList (.ok ⟨.malformed false true⟩)
          (.error ())).status ≠ "error" := by
  decide

/-- C8 amended: faults thrown inside the DNS phase of the engine are caught
by the catch-all of verifyEmail and mapped to risky/dns_timeout; only faults
raised outside verifyEmail, such as a request body that fails to parse,
reach the transport boundary, where handleRequest reports the generic
status error / reason internal_error outcome, which is distinct from the
three verdict statuses; a malformed truthy non-array record set is not
detected as a fault: with a zero length test it yields invalid/no_mx, and
otherwise it is treated like a non-empty record set, which yields
valid/dns_verified when the domain is not suspicious. -/
theorem claim_C8_amended :
    (∀ (email : List Char) (a : FetchOutcome),
      emailRegexTest email = true →
      DISPOSABLE_DOMAINS.contains ((domainOf email).map Char.toLower) = false →
      ROLE_BASED_SET.contains ((localOf email).map Char.toLower) = false →
      verifyEmail email (.error ()) a = ⟨"risky", "dns_timeout"⟩) ∧
    (∀ mx a : FetchOutcome,
      handleRequest .parseFail mx a = .internalError "error" "internal_error") ∧
    ("error" ≠ "valid" ∧ "error" ≠ "invalid" ∧ "error" ≠ "risky") ∧
    (∀ (email : List Char) (a : FetchOutcome) (lp : Bool),
      emailRegexTest email = true →
      DISPOSABLE_DOMAINS.contains ((domainOf email).map Char.toLower) = false →
      ROLE_BASED_SET.contains ((localOf email).map Char.toLower) = false →
      (getDomainInfo (domainOf email)).suspicious = false →
      verifyEmail email (.ok ⟨.malformed false lp⟩) a =
        ⟨"valid", "dns_verified"⟩) ∧
    (∀ (email : List Char) (a : FetchOutcome) (lp : Bool),
      emailRegexTest email = true →
      DISPOSABLE_DOMAINS.contains ((domainOf email).map Char.toLower) = false →
      ROLE_BASED_SET.contains ((localOf email).map Char.toLower) = false →
      verifyEmail email (.ok ⟨.malformed true lp⟩) a = ⟨"invalid", "no_mx"⟩) := by
  refine ⟨?_, ?_, by decide, ?_, ?_⟩
  · intro email a hr hdisp hrole
    rw [verifyEmail_after_regex hr, hdisp, hrole]
    rfl
  · intro mx a
    rfl
  · intro email a lp hr hdisp hrole hsusp
    rw [verifyEmail_after_regex hr, hdisp, hrole]
    show (if (!jsTruthy (.malformed false lp) ||
          jsLenEqZero (.malformed false lp)) = true then
        ({ status := "invalid", reason := "no_mx" } : VerificationResult)
      else
        if (getDomainInfo (domainOf email)).suspicious = true then
          { status := "risky", reason := "suspicious_domain" }
        else { status := "valid", reason := "dns_verified" }) =
      { status := "valid", reason := "dns_verified" }
    rw [hsusp]
    rfl
  · intro email a lp hr hdisp hrole
    rw [verifyEmail_after_regex hr, hdisp, hrole]
    rfl

/-- Witness for C8 amended, applying its parts at concrete inputs. -/
theorem claim_C8_amended_witness :
    verifyEmail "user@example.com".toList (.error ()) (.error ()) =
        ⟨"risky", "dns_timeout"⟩ ∧
      handleRequest .parseFail (.error ()) (.error ()) =
        .internalError "error" "internal_error" ∧
      verifyEmail "user@example.com".toList (.ok ⟨.malformed false false⟩)
          (.error ()) = ⟨"valid", "dns_verified"⟩ ∧
      verifyEmail "user@example.com".toList (.ok ⟨.malformed true false⟩)
          (.error ()) = ⟨"invalid", "no_mx"⟩ :=
  ⟨claim_C8_amended.1 "user@example.com".toList (.error ())
      (by decide) (by decide) (by decide),
    claim_C8_amended.2.1 (.error ()) (.error ()),
    claim_C8_amended.2.2.2.1 "user@example.com".toList (.error ()) false
      (by decide) (by decide) (by decide) (by decide),
    claim_C8_amended.2.2.2.2 "user@example.com".toList (.error ()) false
      (by decide) (by decide) (by decide)⟩
